import Mathlib

/-!
Shallow embedding of the cyh-terminal session engine: the session/event
persistence layer (`SessionManager` in the Go source, file `part_005`),
the terminal handler's container resolution, and the live-sharing hub
(`LiveHub` in `terminal_handler_unix.go`).  Machine integers that cannot
overflow in practice (millisecond timestamps, byte counts) are modelled
as `Int`/`Nat`; Go byte strings are modelled as `List Nat`; fallible
operations return `Except`.
-/

namespace CyhTerminal

/-! ### Identifier generation (`GenerateID`, `GenerateShareToken`) -/

/-- Lower-case hex digit for a nibble, as produced by Go `hex.EncodeToString`. -/
def hexDigit (n : Nat) : Char :=
  if n < 10 then Char.ofNat (48 + n) else Char.ofNat (87 + n)

/-- Two hex digits of one byte (`hex.EncodeToString` emits high nibble first). -/
def hexEncodeByte (b : Nat) : List Char :=
  [hexDigit (b / 16), hexDigit (b % 16)]

/-- Go `hex.EncodeToString` on a byte slice. -/
def hexEncode (bytes : List Nat) : String :=
  String.mk (bytes.map hexEncodeByte).flatten

/-- `GenerateID` reads this many bytes from `crypto/rand` (`make([]byte, 8)`). -/
def generateIDNumBytes : Nat := 8

/-- `GenerateShareToken` reads this many bytes from `crypto/rand` (`make([]byte, 16)`). -/
def generateShareTokenNumBytes : Nat := 16

/-- `GenerateID`, with the bytes drawn from the crypto source made explicit:
the Go code hex-encodes exactly the random bytes it read. -/
def GenerateID (randomBytes : List Nat) : String :=
  hexEncode randomBytes

/-- Entropy, in bits, of a session ID: 8 bits per byte drawn from `crypto/rand`. -/
def generateIDEntropyBits : Nat := 8 * generateIDNumBytes

/-- A lower-case hex digit character. -/
def isHexChar (c : Char) : Bool :=
  (48 ≤ c.toNat && c.toNat ≤ 57) || (97 ≤ c.toNat && c.toNat ≤ 102)

/-! ### Session store model (`SessionManager`, Go file `part_005`) -/

/-- `PermissionMode`: the three values admitted by the API layer
(`view_only` / `shared_control` / `instructor`). -/
inductive PermissionMode where
  | viewOnly
  | sharedControl
  | instructor
deriving DecidableEq, Repr

/-- A row of the `term_sessions` table / Go `TermSession`.
Timestamps are Unix milliseconds. -/
structure TermSession where
  id : String
  user : String
  name : String
  mode : String
  containerName : String
  createdAt : Int
  endedAt : Option Int
  duration : Int
  isLive : Bool
  shareToken : Option String
  permissionMode : PermissionMode
deriving DecidableEq, Repr

/-- A row of the `terminal_logs` table. -/
structure LogRow where
  sessionId : String
  eventType : String
  data : String
  timestamp : Int
deriving DecidableEq, Repr

/-- Go `SessionEvent`. -/
structure SessionEvent where
  type : String
  timestamp : Int
  data : String
deriving DecidableEq, Repr

/-- Go `ActiveSession` (in-memory active handle). -/
structure ActiveSession where
  startTime : Int
  lastActivity : Int
deriving DecidableEq, Repr

/-- The `SessionManager`'s state: the two SQLite tables (rows kept in
insertion order) and the in-memory `activeSessions` map. -/
structure SMState where
  sessions : List TermSession
  logs : List LogRow
  active : List (String × ActiveSession)
deriving DecidableEq, Repr

/-- Database-style errors; `noRows` is Go `sql.ErrNoRows`. -/
inductive DbError where
  | noRows
deriving DecidableEq, Repr

/-- Lookup in the `activeSessions` map. -/
def lookupActive (st : SMState) (id : String) : Option ActiveSession :=
  (st.active.find? (fun p => p.1 == id)).map Prod.snd

/-- `GetSession`: `SELECT ... FROM term_sessions WHERE id = ?` (`id` is the
primary key, so the first matching row). -/
def GetSession (st : SMState) (id : String) : Option TermSession :=
  st.sessions.find? (fun s => s.id == id)

/-- `EndSession`: requires an active handle (else `sql.ErrNoRows`), removes
it, and updates the session row with end time, elapsed duration and
`is_live = 0`.  `now` is the instant `time.Now()` observed. -/
def EndSession (st : SMState) (id : String) (now : Int) :
    Except DbError Unit × SMState :=
  match lookupActive st id with
  | none => (Except.error DbError.noRows, st)
  | some active =>
    let st1 : SMState := { st with active := st.active.filter (fun p => !(p.1 == id)) }
    let duration := now - active.startTime
    let st2 : SMState := { st1 with
      sessions := st1.sessions.map (fun s =>
        if s.id == id then { s with endedAt := some now, duration := duration, isLive := false }
        else s) }
    (Except.ok (), st2)

/-- `DeleteSession`: `DELETE FROM term_sessions WHERE id = ? AND user = ?`;
`sql.ErrNoRows` when no row was affected; removes the active handle.
The `terminal_logs` table is not touched by this operation. -/
def DeleteSession (st : SMState) (id user : String) :
    Except DbError Unit × SMState :=
  let remaining := st.sessions.filter (fun s => !(s.id == id && s.user == user))
  if st.sessions.countP (fun s => s.id == id && s.user == user) == 0 then
    (Except.error DbError.noRows, st)
  else
    (Except.ok (), { st with
      sessions := remaining,
      active := st.active.filter (fun p => !(p.1 == id)) })

/-- Insert an event into a list sorted by timestamp ascending
(model of SQLite `ORDER BY timestamp ASC`). -/
def insertByTs (e : SessionEvent) : List SessionEvent → List SessionEvent
  | [] => [e]
  | x :: xs => if e.timestamp < x.timestamp then e :: x :: xs else x :: insertByTs e xs

/-- Sort events by timestamp ascending. -/
def sortByTs (l : List SessionEvent) : List SessionEvent :=
  l.foldr insertByTs []

/-- The timestamp-normalisation step of `GetSessionData`: `startTs` is the
session creation time, lowered to the first event's timestamp if that is
earlier; every timestamp becomes its offset from `startTs`, clamped at 0. -/
def normalizeEvents (createdAt : Int) (events : List SessionEvent) : List SessionEvent :=
  match events with
  | [] => []
  | e0 :: _ =>
    let startTs := if e0.timestamp < createdAt then e0.timestamp else createdAt
    events.map (fun e =>
      let rel := e.timestamp - startTs
      { e with timestamp := if rel < 0 then 0 else rel })

/-- The session's stored events: rows of `terminal_logs` with this
session id, as `SessionEvent`s, in table order. -/
def storedEvents (st : SMState) (id : String) : List SessionEvent :=
  (st.logs.filter (fun r => r.sessionId == id)).map
    (fun r => { type := r.eventType, timestamp := r.timestamp, data := r.data })

/-- `GetSessionData`: fetches the session row, the session's log rows
ordered by timestamp ascending, then normalises timestamps. -/
def GetSessionData (st : SMState) (id : String) :
    Option (TermSession × List SessionEvent) :=
  match GetSession st id with
  | none => none
  | some sess =>
    some (sess, normalizeEvents sess.createdAt (sortByTs (storedEvents st id)))

/-! ### Container name resolution (`handleTerminal`, docker mode) -/

/-- Byte/character prefix test, Go `strings.HasPrefix` (usernames and
container names are ASCII, where the byte-wise and character-wise tests
agree). -/
def hasPrefixStr (s p : String) : Bool :=
  s.data.take p.data.length == p.data

/-- `sanitizeContainerUser`: lower-case the username (ASCII lowering, as
all relevant characters are ASCII) and replace every character outside
`[a-z0-9_-]` by an underscore; empty result becomes `"user"`. -/
def sanitizeContainerUser (user : String) : String :=
  let base := user.data.map Char.toLower
  let safeUser := String.mk (base.map (fun r =>
    if (97 ≤ r.toNat && r.toNat ≤ 122) || (48 ≤ r.toNat && r.toNat ≤ 57)
        || r == '_' || r == '-' then r else '_'))
  if safeUser == "" then "user" else safeUser

/-- `containerUserPrefix` in the Go source: the user's container namespace. -/
def containerUserNs (user : String) : String :=
  "cyh_" ++ sanitizeContainerUser user ++ "_"

/-- `buildContainerName`: the session-specific container name. -/
def buildContainerName (user sessionID : String) : String :=
  "cyh_" ++ sanitizeContainerUser user ++ "_sess_" ++ sessionID

/-- `legacyContainerName`: the per-user fallback container. -/
def legacyContainerName (username : String) : String :=
  if username == "guest" then "cyh_guest_terminal" else "cyh_" ++ username ++ "_terminal"

/-- The default container handle in `handleTerminal`: the session's
`ContainerName` when the session exists and has one, else the legacy
per-user container.  `sessionContainer` is `none` when `session == nil`. -/
def defaultContainerName (username : String) (sessionContainer : Option String) : String :=
  match sessionContainer with
  | some cn => if cn == "" then legacyContainerName username else cn
  | none => legacyContainerName username

/-- The namespace a requested container is checked against: the user's
container namespace, with the (equal-valued) literal used for `guest`. -/
def expectedContainerNs (username : String) : String :=
  if username == "guest" then "cyh_guest_" else containerUserNs username

/-- The container-resolution logic of `handleTerminal` (docker mode): an
explicitly requested container is honoured only when it starts with the
user's namespace or equals the default handle; otherwise the default
handle is kept. -/
def resolveContainer (username : String) (sessionContainer : Option String)
    (targetContainer : String) : String :=
  let userContainerName := defaultContainerName username sessionContainer
  if targetContainer == "" then userContainerName
  else
    if hasPrefixStr targetContainer (expectedContainerNs username)
        || targetContainer == userContainerName then
      targetContainer
    else
      userContainerName

/-! ### Live hub model (`LiveHub`, `LiveRoom`, `LiveViewer`) -/

/-- Payloads carried in a `LiveMessage`'s `Data` field. -/
inductive MsgData where
  | bytes (b : List Nat)
  | user (username : String)
  | userCount (username : String) (count : Nat)
  | mode (m : PermissionMode)
deriving DecidableEq, Repr

/-- Go `LiveMessage`. -/
structure HubMsg where
  type : String
  sessionId : String
  data : MsgData
  sender : Option String
  timestamp : Int
deriving DecidableEq, Repr

/-- Go `LiveViewer`: one connection into a room.  `vid` models the
connection's pointer identity; `sendQueue`/`sendCap` model the buffered
`send` channel. -/
structure Viewer where
  vid : Nat
  sessionId : String
  username : String
  isOwner : Bool
  canWrite : Bool
  sendQueue : List HubMsg
  sendCap : Nat
deriving DecidableEq, Repr

/-- The API layer creates `LiveViewer.send` with capacity 2048. -/
def liveViewerSendCap : Nat := 2048

/-- Non-blocking enqueue on a viewer's `send` channel (`select`/`default`
drops the message when the buffer is full). -/
def trySend (v : Viewer) (m : HubMsg) : Viewer :=
  if v.sendQueue.length < v.sendCap then { v with sendQueue := v.sendQueue ++ [m] } else v

/-- Go `LiveRoom`.  `owner` holds the owner connection's identity
(`room.Owner`, `nil` modelled as `none`); `outputBuffer` is the trailing
output buffer in bytes. -/
structure Room where
  sessionId : String
  owner : Option Nat
  viewers : List Viewer
  permissionMode : PermissionMode
  outputBuffer : List Nat
deriving DecidableEq, Repr

/-- Go `LiveHub`: the room registry (`rooms` map as an association list). -/
structure HubState where
  rooms : List (String × Room)
deriving DecidableEq, Repr

/-- A fresh hub has no rooms. -/
def hubInit : HubState := ⟨[]⟩

/-- `h.rooms[sid]` map lookup. -/
def lookupRoom (h : HubState) (sid : String) : Option Room :=
  (h.rooms.find? (fun p => p.1 == sid)).map Prod.snd

/-- Replace the room stored under `sid` (no-op on other keys). -/
def updateRoom (h : HubState) (sid : String) (r : Room) : HubState :=
  ⟨h.rooms.map (fun p => if p.1 == sid then (sid, r) else p)⟩

/-- `delete(h.rooms, sid)`. -/
def removeRoom (h : HubState) (sid : String) : HubState :=
  ⟨h.rooms.filter (fun p => !(p.1 == sid))⟩

/-- `h.rooms[sid] = r` for a key not yet present. -/
def insertRoom (h : HubState) (sid : String) (r : Room) : HubState :=
  ⟨(sid, r) :: h.rooms⟩

/-- `permission_grant` notification. -/
def msgPermissionGrant (sid username : String) (now : Int) : HubMsg :=
  { type := "permission_grant", sessionId := sid, data := MsgData.user username,
    sender := none, timestamp := now }

/-- `permission_deny` notification. -/
def msgPermissionDeny (sid username : String) (now : Int) : HubMsg :=
  { type := "permission_deny", sessionId := sid, data := MsgData.user username,
    sender := none, timestamp := now }

/-- `output` message carrying terminal bytes. -/
def msgOutput (sid : String) (b : List Nat) (now : Int) : HubMsg :=
  { type := "output", sessionId := sid, data := MsgData.bytes b,
    sender := none, timestamp := now }

/-- `viewer_join` notification. -/
def msgViewerJoin (sid username : String) (count : Nat) (now : Int) : HubMsg :=
  { type := "viewer_join", sessionId := sid, data := MsgData.userCount username count,
    sender := none, timestamp := now }

/-- `viewer_leave` notification. -/
def msgViewerLeave (sid username : String) (count : Nat) (now : Int) : HubMsg :=
  { type := "viewer_leave", sessionId := sid, data := MsgData.userCount username count,
    sender := none, timestamp := now }

/-- `permission_mode_change` notification. -/
def msgModeChange (sid : String) (m : PermissionMode) (now : Int) : HubMsg :=
  { type := "permission_mode_change", sessionId := sid, data := MsgData.mode m,
    sender := none, timestamp := now }

/-- An input message forwarded from a viewer to the owner, with the
viewer as sender. -/
def msgInputFwd (sid : String) (d : MsgData) (sender : String) (now : Int) : HubMsg :=
  { type := "input", sessionId := sid, data := d, sender := some sender, timestamp := now }

/-- `handleBroadcast`: non-blocking fan-out of one message to every
member of the message's room (no-op when the room does not exist). -/
def handleBroadcast (h : HubState) (msg : HubMsg) : HubState :=
  match lookupRoom h msg.sessionId with
  | none => h
  | some room =>
    updateRoom h msg.sessionId
      { room with viewers := room.viewers.map (fun w => trySend w msg) }

/-- The body of `handleRegister` once the room is at hand: assign owner
reference and write permission, immediately notify a writable joiner,
replay the trailing buffer, add the member, and broadcast `viewer_join`. -/
def registerInto (h : HubState) (sid : String) (room : Room) (v : Viewer)
    (now : Int) : HubState :=
  let assigned :=
    if v.isOwner then
      ({ room with owner := some v.vid }, { v with canWrite := true })
    else
      (room,
        { v with canWrite :=
            match room.permissionMode with
            | PermissionMode.viewOnly => false
            | PermissionMode.sharedControl => true
            | PermissionMode.instructor => false })
  let room1 := assigned.1
  let v1 := assigned.2
  let v2 := if v1.canWrite then trySend v1 (msgPermissionGrant sid v1.username now) else v1
  let v3 := if 0 < room1.outputBuffer.length then trySend v2 (msgOutput sid room1.outputBuffer now) else v2
  let room2 := { room1 with viewers := v3 :: room1.viewers.filter (fun w => !(w.vid == v.vid)) }
  let h1 := updateRoom h sid room2
  handleBroadcast h1 (msgViewerJoin sid v.username room2.viewers.length now)

/-- `handleRegister`: look up or create the room (creation loads the
session's permission mode from the registry — `sessLookup` is the result
of that `GetSession` call; on failure the hub is unchanged), then add
the connection. -/
def handleRegister (h : HubState) (v : Viewer) (sessLookup : Option PermissionMode)
    (now : Int) : HubState :=
  match lookupRoom h v.sessionId with
  | some room => registerInto h v.sessionId room v now
  | none =>
    match sessLookup with
    | none => h
    | some pm =>
      let room : Room :=
        { sessionId := v.sessionId, owner := none, viewers := [],
          permissionMode := pm, outputBuffer := [] }
      registerInto (insertRoom h v.sessionId room) v.sessionId room v now

/-- `handleUnregister`: remove the member, clear the owner reference if
it was the owner, destroy the room when it became empty, otherwise
broadcast `viewer_leave`. -/
def handleUnregister (h : HubState) (v : Viewer) (now : Int) : HubState :=
  match lookupRoom h v.sessionId with
  | none => h
  | some room =>
    let viewers1 := room.viewers.filter (fun w => !(w.vid == v.vid))
    let owner1 := if room.owner == some v.vid then none else room.owner
    let room1 := { room with viewers := viewers1, owner := owner1 }
    if viewers1.length == 0 then removeRoom h v.sessionId
    else handleBroadcast (updateRoom h v.sessionId room1)
      (msgViewerLeave v.sessionId v.username viewers1.length now)

/-- The trailing-buffer update of `BroadcastOutput`: append, then drop
the oldest bytes past the 50 KB cap. -/
def bufAppend (buf data : List Nat) : List Nat :=
  let b := buf ++ data
  if 50000 < b.length then b.drop (b.length - 50000) else b

/-- `BroadcastOutput`: update the room's trailing buffer and fan the
message out to every member with a non-blocking enqueue. -/
def BroadcastOutput (h : HubState) (sid : String) (data : List Nat) (now : Int) : HubState :=
  match lookupRoom h sid with
  | none => h
  | some room =>
    let msg := msgOutput sid data now
    updateRoom h sid
      { room with
        outputBuffer := bufAppend room.outputBuffer data,
        viewers := room.viewers.map (fun w => trySend w msg) }

/-- The loop body of `GrantPermission`: set the first member with the
given username writable and notify it. -/
def grantFirst (sid username : String) (now : Int) : List Viewer → List Viewer
  | [] => []
  | w :: ws =>
    if w.username == username then
      trySend { w with canWrite := true } (msgPermissionGrant sid username now) :: ws
    else w :: grantFirst sid username now ws

/-- `GrantPermission` (the Go `bool` result — whether a member matched —
does not affect hub state and is omitted). -/
def GrantPermission (h : HubState) (sid username : String) (now : Int) : HubState :=
  match lookupRoom h sid with
  | none => h
  | some room =>
    updateRoom h sid { room with viewers := grantFirst sid username now room.viewers }

/-- The loop body of `RevokePermission`: owners are skipped
(`!viewer.IsOwner`); the first matching non-owner loses write access
and is notified. -/
def revokeFirst (sid username : String) (now : Int) : List Viewer → List Viewer
  | [] => []
  | w :: ws =>
    if w.username == username && !w.isOwner then
      trySend { w with canWrite := false } (msgPermissionDeny sid username now) :: ws
    else w :: revokeFirst sid username now ws

/-- `RevokePermission` (Go `bool` result omitted, as for grant). -/
def RevokePermission (h : HubState) (sid username : String) (now : Int) : HubState :=
  match lookupRoom h sid with
  | none => h
  | some room =>
    updateRoom h sid { room with viewers := revokeFirst sid username now room.viewers }

/-- Reassignment of one member's write flag on a mode change: owners are
skipped. -/
def applyModeToViewer (mode : PermissionMode) (w : Viewer) : Viewer :=
  if w.isOwner then w
  else
    match mode with
    | PermissionMode.viewOnly => { w with canWrite := false }
    | PermissionMode.sharedControl => { w with canWrite := true }
    | PermissionMode.instructor => { w with canWrite := false }

/-- `UpdatePermissionMode`: lazily creates the room (with no members)
when absent, stores the mode, reassigns every non-owner member's write
flag, and broadcasts the mode change. -/
def UpdatePermissionMode (h : HubState) (sid : String) (mode : PermissionMode)
    (now : Int) : HubState :=
  let created :=
    match lookupRoom h sid with
    | some r => (h, r)
    | none =>
      let r : Room :=
        { sessionId := sid, owner := none, viewers := [],
          permissionMode := mode, outputBuffer := [] }
      (insertRoom h sid r, r)
  let h1 := created.1
  let room := created.2
  let room1 := { room with
    permissionMode := mode,
    viewers := room.viewers.map (applyModeToViewer mode) }
  handleBroadcast (updateRoom h1 sid room1) (msgModeChange sid mode now)

/-- The `MsgTypeInput` case of `LiveViewer.ReadPump`: only when the
viewer has write permission, and the room and its owner exist, is a
forwarded input message enqueued to the owner connection. -/
def processViewerInput (h : HubState) (v : Viewer) (d : MsgData) (now : Int) : HubState :=
  if v.canWrite then
    match lookupRoom h v.sessionId with
    | none => h
    | some room =>
      match room.owner with
      | none => h
      | some ovid =>
        updateRoom h v.sessionId
          { room with viewers := room.viewers.map (fun w =>
              if w.vid == ovid then trySend w (msgInputFwd v.sessionId d v.username now) else w) }
  else h

/-- One hub operation, with the inputs each operation consumes
(`sessLookup` is the registry lookup a room-creating register performs;
`now` the wall-clock instant). -/
inductive HubOp where
  | register (v : Viewer) (sessLookup : Option PermissionMode) (now : Int)
  | unregister (v : Viewer) (now : Int)
  | broadcastOutput (sid : String) (data : List Nat) (now : Int)
  | grant (sid username : String) (now : Int)
  | revoke (sid username : String) (now : Int)
  | updateMode (sid : String) (mode : PermissionMode) (now : Int)
deriving Repr

/-- Apply one hub operation. -/
def applyOp (h : HubState) : HubOp → HubState
  | HubOp.register v sl now => handleRegister h v sl now
  | HubOp.unregister v now => handleUnregister h v now
  | HubOp.broadcastOutput sid d now => BroadcastOutput h sid d now
  | HubOp.grant sid u now => GrantPermission h sid u now
  | HubOp.revoke sid u now => RevokePermission h sid u now
  | HubOp.updateMode sid m now => UpdatePermissionMode h sid m now

/-- Hub states reachable from the fresh hub by any sequence of operations. -/
inductive ReachableHub : HubState → Prop
  | init : ReachableHub hubInit
  | step {s : HubState} (h : ReachableHub s) (op : HubOp) : ReachableHub (applyOp s op)

/-- Guard singling out the one operation that can create a memberless
room: `UpdatePermissionMode` on a session with no existing room. -/
def opKeepsRoomsInhabited (s : HubState) : HubOp → Prop
  | HubOp.updateMode sid _ _ => (lookupRoom s sid).isSome = true
  | _ => True

/-- Reachability restricted to sequences in which every
`UpdatePermissionMode` call targets a session that already has a room. -/
inductive ReachableHubGuarded : HubState → Prop
  | init : ReachableHubGuarded hubInit
  | step {s : HubState} (h : ReachableHubGuarded s) (op : HubOp)
      (hop : opKeepsRoomsInhabited s op) : ReachableHubGuarded (applyOp s op)

/-! ### Derived notions used in the statements -/

/-- The last `n` bytes of a byte string, in order. -/
def takeLast (n : Nat) (l : List Nat) : List Nat :=
  l.drop (l.length - n)

/-- The permission mode a registering connection is judged against: the
existing room's mode, or — when the room is created — the mode loaded
from the session registry. -/
def effectiveMode (h : HubState) (sid : String) (sessLookup : Option PermissionMode) :
    Option PermissionMode :=
  match lookupRoom h sid with
  | some r => some r.permissionMode
  | none => sessLookup

/-- Timestamp order on events. -/
def tsLE (a b : SessionEvent) : Prop :=
  a.timestamp ≤ b.timestamp

/-- A connection marked as owner has write permission. -/
def ownerWriteP (w : Viewer) : Prop :=
  w.isOwner = true → w.canWrite = true

/-- Every owner-flagged member of every room in the registry can write. -/
def ownerWriteInv (s : HubState) : Prop :=
  ∀ p ∈ s.rooms, ∀ w ∈ p.2.viewers, ownerWriteP w

/-- Every room in the registry has at least one member. -/
def roomsInhabitedInv (s : HubState) : Prop :=
  ∀ p ∈ s.rooms, p.2.viewers ≠ []

/-! ### Concrete sample states (used to evaluate the definitions) -/

/-- A concrete persisted session owned by `alice`, created at t = 100 ms. -/
def sampleSession : TermSession :=
  { id := "s1", user := "alice", name := "Terminal 10:00:00", mode := "local",
    containerName := "", createdAt := 100, endedAt := none, duration := 0,
    isLive := true, shareToken := some "tok", permissionMode := PermissionMode.viewOnly }

/-- A concrete store state: one session, two log rows (out of timestamp
order in the table), one active handle started at t = 90 ms. -/
def sampleSM : SMState :=
  { sessions := [sampleSession],
    logs := [ { sessionId := "s1", eventType := "output", data := "$ ", timestamp := 150 },
              { sessionId := "s1", eventType := "input", data := "ls", timestamp := 130 } ],
    active := [("s1", { startTime := 90, lastActivity := 150 })] }

/-- A fallback room value for total lookups on sample states. -/
def roomFallback : Room :=
  { sessionId := "", owner := none, viewers := [],
    permissionMode := PermissionMode.viewOnly, outputBuffer := [] }

/-- A fallback viewer value for total lookups on sample states. -/
def viewerFallback : Viewer :=
  { vid := 0, sessionId := "", username := "", isOwner := false, canWrite := false,
    sendQueue := [], sendCap := 0 }

/-- The owner connection of session `s1`, not yet registered. -/
def sampleOwner : Viewer :=
  { vid := 1, sessionId := "s1", username := "alice", isOwner := true, canWrite := false,
    sendQueue := [], sendCap := liveViewerSendCap }

/-- A non-owner connection of session `s1`, not yet registered. -/
def sampleViewerBob : Viewer :=
  { vid := 2, sessionId := "s1", username := "bob", isOwner := false, canWrite := false,
    sendQueue := [], sendCap := liveViewerSendCap }

/-- The hub after the owner registered into a fresh hub (room `s1`
created with mode `view_only`). -/
def sampleHubOwnerOnly : HubState :=
  applyOp hubInit (HubOp.register sampleOwner (some PermissionMode.viewOnly) 0)

/-- The room of `s1` in `sampleHubOwnerOnly`. -/
def sampleRoomOwnerOnly : Room :=
  (lookupRoom sampleHubOwnerOnly "s1").getD roomFallback

/-- The single member of `sampleRoomOwnerOnly`. -/
def sampleRegisteredOwner : Viewer :=
  sampleRoomOwnerOnly.viewers.getD 0 viewerFallback

/-! ## Theorems -/

/-! ### General helper lemmas -/

theorem find?_map_of_pred {α : Type} (f : α → α) (p : α → Bool)
    (hf : ∀ x, p (f x) = p x) (l : List α) :
    (l.map f).find? p = (l.find? p).map f := by
  induction l with
  | nil => rfl
  | cons x xs ih =>
    by_cases hx : p x = true
    · simp [List.find?_cons, hf, hx]
    · have hx' : p x = false := by revert hx; cases p x <;> simp
      simp [List.find?_cons, hf, hx', ih]

theorem find?_filter_not_self {α : Type} (p : α → Bool) (l : List α) :
    (l.filter (fun x => !(p x))).find? p = none := by
  apply List.find?_eq_none.mpr
  intro x hx
  have hmem := List.mem_filter.mp hx
  simpa using hmem.2

theorem find?_filter_ne_key {β : Type} (l : List (String × β)) (id : String) :
    (l.filter (fun p => !(p.1 == id))).find? (fun p => p.1 == id) = none := by
  apply List.find?_eq_none.mpr
  intro x hx
  have hmem := List.mem_filter.mp hx
  simpa using hmem.2

/-! ### C1: a viewer without write permission never forwards input -/

/-- **C1.** In the hub's input-processing path (`ReadPump`, case
`MsgTypeInput`), a viewer whose `CanWrite` flag is false leaves the hub
state — in particular the owner connection's outbound buffer — entirely
unchanged: no forwarded input message is enqueued to anyone. -/
theorem viewer_without_write_forwards_nothing (h : HubState) (v : Viewer)
    (d : MsgData) (now : Int) (hcw : v.canWrite = false) :
    processViewerInput h v d now = h ∧
    (∀ r : Room, lookupRoom h v.sessionId = some r →
      lookupRoom (processViewerInput h v d now) v.sessionId = some r) := by
  have hmain : processViewerInput h v d now = h := by
    simp [processViewerInput, hcw]
  exact ⟨hmain, fun r hr => by rw [hmain]; exact hr⟩

/-- Witness for C1: the unwritable viewer `bob` sends an input payload
into a live room with a registered owner; the hub state is unchanged. -/
theorem viewer_without_write_forwards_nothing_witness :
    sampleViewerBob.canWrite = false ∧
    processViewerInput sampleHubOwnerOnly sampleViewerBob (MsgData.bytes [108]) 5 =
      sampleHubOwnerOnly :=
  ⟨rfl, (viewer_without_write_forwards_nothing sampleHubOwnerOnly sampleViewerBob
    (MsgData.bytes [108]) 5 rfl).1⟩

/-! ### C2: unauthorized container requests are downgraded -/

/-- **C2.** In docker mode, when an explicitly requested container handle
neither starts with the resolved user's container namespace nor equals
the session's own container name, `handleTerminal` attaches the
connection to the default handle (the session's container) and never to
the requested one. -/
theorem unauthorized_container_request_downgraded
    (username cn target : String) (hcn : cn ≠ "") (ht : target ≠ "")
    (hns : hasPrefixStr target (expectedContainerNs username) = false)
    (hne : target ≠ cn) :
    resolveContainer username (some cn) target = defaultContainerName username (some cn) ∧
    defaultContainerName username (some cn) = cn ∧
    resolveContainer username (some cn) target ≠ target := by
  have hcn' : (cn == "") = false := by
    simpa using hcn
  have ht' : (target == "") = false := by
    simpa using ht
  have hne' : (target == cn) = false := by
    simpa using hne
  have hdef : defaultContainerName username (some cn) = cn := by
    simp [defaultContainerName, hcn']
  have hres : resolveContainer username (some cn) target = cn := by
    simp [resolveContainer, hdef, ht', hns, hne']
  exact ⟨by rw [hres, hdef], hdef, by rw [hres]; exact Ne.symm hne⟩

/-- Witness for C2: `alice`'s session container is
`cyh_alice_sess_aabbccdd`; requesting `cyh_bob_secret` is downgraded to
the session container. -/
theorem unauthorized_container_request_downgraded_witness :
    ("cyh_alice_sess_aabbccdd" : String) ≠ "" ∧
    ("cyh_bob_secret" : String) ≠ "" ∧
    hasPrefixStr "cyh_bob_secret" (expectedContainerNs "alice") = false ∧
    ("cyh_bob_secret" : String) ≠ "cyh_alice_sess_aabbccdd" ∧
    resolveContainer "alice" (some "cyh_alice_sess_aabbccdd") "cyh_bob_secret" =
      "cyh_alice_sess_aabbccdd" :=
  ⟨by decide, by decide, by decide, by decide, by
    have h := unauthorized_container_request_downgraded "alice"
      "cyh_alice_sess_aabbccdd" "cyh_bob_secret" (by decide) (by decide) (by decide) (by decide)
    rw [h.1, h.2.1]⟩

/-! ### C9: session ID entropy -/

/-- **C9 counterexample.** `GenerateID` draws 8 random bytes — 64 bits of
entropy, not the claimed minimum of 128 — and the resulting hex ID has
16 characters rather than the 32 a 128-bit ID would have. -/
theorem generateID_entropy_below_128 :
    generateIDNumBytes = 8 ∧ generateIDEntropyBits = 64 ∧
    ¬ (128 ≤ generateIDEntropyBits) ∧
    (GenerateID (List.replicate generateIDNumBytes 0)).length = 16 := by
  decide

theorem isHexChar_hexDigit {n : Nat} (h : n < 16) : isHexChar (hexDigit n) = true := by
  interval_cases n <;> decide

theorem length_hexChars (bytes : List Nat) :
    ((bytes.map hexEncodeByte).flatten).length = 2 * bytes.length := by
  induction bytes with
  | nil => rfl
  | cons b bs ih =>
    simp only [List.map_cons, List.flatten_cons, List.length_append, ih, hexEncodeByte,
      List.length_cons, List.length_nil, List.length_cons]
    omega

/-- **C9 amended.** Every generated session ID is the hex encoding of the
bytes drawn from the cryptographically strong source (`crypto/rand`):
8 bytes, hence 64 bits of entropy (meeting the spec's 64-bit floor for
session IDs but not 128 bits), encoded as 16 lower-case hex characters. -/
theorem generateID_is_hex_of_64_random_bits (bytes : List Nat)
    (hlen : bytes.length = generateIDNumBytes) (hbytes : ∀ b ∈ bytes, b < 256) :
    GenerateID bytes = hexEncode bytes ∧
    (GenerateID bytes).length = 16 ∧
    (∀ c ∈ (GenerateID bytes).data, isHexChar c = true) ∧
    generateIDEntropyBits = 8 * generateIDNumBytes ∧
    64 ≤ generateIDEntropyBits := by
  refine ⟨rfl, ?_, ?_, rfl, by decide⟩
  · show ((bytes.map hexEncodeByte).flatten).length = 16
    rw [length_hexChars, hlen]
    decide
  · intro c hc
    have hc' : c ∈ (bytes.map hexEncodeByte).flatten := hc
    rcases List.mem_flatten.mp hc' with ⟨piece, hpiece, hcpiece⟩
    rcases List.mem_map.mp hpiece with ⟨b, hb, rfl⟩
    have hb256 := hbytes b hb
    have hdiv : b / 16 < 16 := by omega
    have hmod : b % 16 < 16 := Nat.mod_lt _ (by omega)
    simp only [hexEncodeByte, List.mem_cons, List.mem_singleton,
      List.not_mem_nil, or_false] at hcpiece
    rcases hcpiece with rfl | rfl
    · exact isHexChar_hexDigit hdiv
    · exact isHexChar_hexDigit hmod

/-- Witness for C9: a concrete 8-byte draw. -/
theorem generateID_is_hex_of_64_random_bits_witness :
    ([0, 17, 34, 51, 68, 85, 102, 119] : List Nat).length = generateIDNumBytes ∧
    (∀ b ∈ ([0, 17, 34, 51, 68, 85, 102, 119] : List Nat), b < 256) ∧
    (GenerateID [0, 17, 34, 51, 68, 85, 102, 119]).length = 16 :=
  ⟨by decide, by decide,
    (generateID_is_hex_of_64_random_bits [0, 17, 34, 51, 68, 85, 102, 119]
      (by decide) (by decide)).2.1⟩

/-! ### C7: EndSession semantics -/

/-- **C7.** `EndSession` fails with `sql.ErrNoRows` and changes nothing
when no active handle exists; with an active handle it persists the end
timestamp and the duration elapsed since the handle's start instant,
clears the live flag, removes the handle, and an immediately repeated
call fails cleanly on the unchanged state. -/
theorem endSession_requires_active_handle (st : SMState) (id : String)
    (now now2 : Int) (a : ActiveSession) (sess : TermSession)
    (ha : lookupActive st id = some a) (hsess : GetSession st id = some sess) :
    (∀ (st2 : SMState) (n : Int), lookupActive st2 id = none →
      EndSession st2 id n = (Except.error DbError.noRows, st2)) ∧
    (EndSession st id now).1 = Except.ok () ∧
    lookupActive (EndSession st id now).2 id = none ∧
    GetSession (EndSession st id now).2 id =
      some { sess with endedAt := some now, duration := now - a.startTime, isLive := false } ∧
    EndSession (EndSession st id now).2 id now2 =
      (Except.error DbError.noRows, (EndSession st id now).2) := by
  have hnone : ∀ (st2 : SMState) (n : Int), lookupActive st2 id = none →
      EndSession st2 id n = (Except.error DbError.noRows, st2) := by
    intro st2 n h2
    simp [EndSession, h2]
  have hstep : EndSession st id now =
      (Except.ok (),
        { sessions := st.sessions.map (fun s =>
            if s.id == id then
              { s with endedAt := some now, duration := now - a.startTime, isLive := false }
            else s),
          logs := st.logs,
          active := st.active.filter (fun p => !(p.1 == id)) }) := by
    unfold EndSession
    rw [ha]
  have hactive : lookupActive (EndSession st id now).2 id = none := by
    rw [hstep]
    simp only [lookupActive]
    rw [find?_filter_ne_key]
    rfl
  refine ⟨hnone, by rw [hstep], hactive, ?_, hnone _ now2 hactive⟩
  have hpred : ∀ s : TermSession,
      ((if s.id == id then
          { s with endedAt := some now, duration := now - a.startTime, isLive := false }
        else s).id == id) = (s.id == id) := by
    intro s
    by_cases h : (s.id == id) = true <;> simp [h]
  have hup := find?_map_of_pred
    (fun s : TermSession =>
      if s.id == id then
        { s with endedAt := some now, duration := now - a.startTime, isLive := false }
      else s)
    (fun s : TermSession => s.id == id) hpred st.sessions
  have hsess' : st.sessions.find? (fun s => s.id == id) = some sess := hsess
  have hsid : (sess.id == id) = true := by
    have := List.find?_some hsess'
    simpa using this
  rw [hstep]
  dsimp only [GetSession]
  rw [hup, hsess']
  have hid : sess.id = id := by simpa using hsid
  simp [hid]

/-- Witness for C7 at the concrete sample store. -/
theorem endSession_requires_active_handle_witness :
    lookupActive sampleSM "s1" = some { startTime := 90, lastActivity := 150 } ∧
    GetSession sampleSM "s1" = some sampleSession ∧
    (EndSession sampleSM "s1" 500).1 = Except.ok () ∧
    lookupActive (EndSession sampleSM "s1" 500).2 "s1" = none ∧
    GetSession (EndSession sampleSM "s1" 500).2 "s1" =
      some { sampleSession with endedAt := some 500, duration := (500 : Int) - 90, isLive := false } ∧
    EndSession (EndSession sampleSM "s1" 500).2 "s1" 600 =
      (Except.error DbError.noRows, (EndSession sampleSM "s1" 500).2) := by
  have h := endSession_requires_active_handle sampleSM "s1" 500 600
    { startTime := 90, lastActivity := 150 } sampleSession (by decide) (by decide)
  exact ⟨by decide, by decide, h.2.1, h.2.2.1, h.2.2.2.1, h.2.2.2.2⟩

/-! ### C8: DeleteSession does not purge the event log -/

/-- **C8 counterexample.** After the owner `alice` deletes session `s1`,
`DeleteSession` reports success, yet the session's recorded events are
still present in the `terminal_logs` table: the code never deletes from
the event log. -/
theorem deleteSession_leaves_event_log :
    (DeleteSession sampleSM "s1" "alice").1 = Except.ok () ∧
    { sessionId := "s1", eventType := "output", data := "$ ", timestamp := 150 : LogRow } ∈
      (DeleteSession sampleSM "s1" "alice").2.logs ∧
    storedEvents (DeleteSession sampleSM "s1" "alice").2 "s1" ≠ [] := by
  refine ⟨rfl, by decide, by decide⟩

/-- **C8 amended.** `DeleteSession` by the owner removes the persisted
session record and the in-memory active handle, but leaves the session's
rows in the event log untouched (no purge). -/
theorem deleteSession_removes_record_keeps_logs (st : SMState) (id user : String)
    (hrow : st.sessions.countP (fun s => s.id == id && s.user == user) ≠ 0)
    (hkey : ∀ s ∈ st.sessions, s.id = id → s.user = user) :
    (DeleteSession st id user).1 = Except.ok () ∧
    GetSession (DeleteSession st id user).2 id = none ∧
    lookupActive (DeleteSession st id user).2 id = none ∧
    (DeleteSession st id user).2.logs = st.logs := by
  have hrow' : (st.sessions.countP (fun s => s.id == id && s.user == user) == 0) = false := by
    simpa using hrow
  refine ⟨by simp [DeleteSession, hrow'], ?_, ?_, by simp [DeleteSession, hrow']⟩
  · simp only [DeleteSession, hrow', Bool.false_eq_true, if_false, GetSession]
    apply List.find?_eq_none.mpr
    intro s hs
    have hmem := List.mem_filter.mp hs
    intro hsid
    have hid : s.id = id := by simpa using hsid
    have huser : s.user = user := hkey s hmem.1 hid
    have : (s.id == id && s.user == user) = true := by
      simp [hid, huser]
    simp [this] at hmem
  · simp only [DeleteSession, hrow', Bool.false_eq_true, if_false, lookupActive]
    rw [find?_filter_ne_key]
    rfl

/-- Witness for the amended C8 at the concrete sample store. -/
theorem deleteSession_removes_record_keeps_logs_witness :
    sampleSM.sessions.countP (fun s => s.id == "s1" && s.user == "alice") ≠ 0 ∧
    (DeleteSession sampleSM "s1" "alice").1 = Except.ok () ∧
    GetSession (DeleteSession sampleSM "s1" "alice").2 "s1" = none ∧
    lookupActive (DeleteSession sampleSM "s1" "alice").2 "s1" = none ∧
    (DeleteSession sampleSM "s1" "alice").2.logs = sampleSM.logs := by
  have h := deleteSession_removes_record_keeps_logs sampleSM "s1" "alice"
    (by decide) (by decide)
  exact ⟨by decide, h.1, h.2.1, h.2.2.1, h.2.2.2⟩

/-! ### C3: GetSessionData ordering and timestamp normalization -/

theorem insertByTs_perm (e : SessionEvent) (l : List SessionEvent) :
    (insertByTs e l).Perm (e :: l) := by
  induction l with
  | nil => simp [insertByTs]
  | cons x xs ih =>
    by_cases hlt : e.timestamp < x.timestamp
    · simp [insertByTs, hlt]
    · simp only [insertByTs, hlt, if_false]
      exact (ih.cons x).trans (List.Perm.swap e x xs)

theorem sortByTs_perm (l : List SessionEvent) : (sortByTs l).Perm l := by
  induction l with
  | nil => simp [sortByTs]
  | cons x xs ih =>
    show (insertByTs x (sortByTs xs)).Perm (x :: xs)
    exact (insertByTs_perm x (sortByTs xs)).trans (ih.cons x)

theorem pairwise_insertByTs (e : SessionEvent) (l : List SessionEvent)
    (hl : l.Pairwise tsLE) : (insertByTs e l).Pairwise tsLE := by
  induction l with
  | nil => simp [insertByTs, List.pairwise_cons]
  | cons x xs ih =>
    rcases List.pairwise_cons.mp hl with ⟨hx, hxs⟩
    by_cases hlt : e.timestamp < x.timestamp
    · simp only [insertByTs, hlt, if_true]
      refine List.pairwise_cons.mpr ⟨?_, hl⟩
      intro a ha
      rcases List.mem_cons.mp ha with rfl | ha'
      · exact le_of_lt hlt
      · exact le_trans (le_of_lt hlt) (hx a ha')
    · simp only [insertByTs, hlt, if_false]
      refine List.pairwise_cons.mpr ⟨?_, ih hxs⟩
      intro a ha
      rcases List.mem_cons.mp ((insertByTs_perm e xs).mem_iff.mp ha) with rfl | ha'
      · exact le_of_not_lt hlt
      · exact hx a ha'

theorem sortByTs_pairwise (l : List SessionEvent) : (sortByTs l).Pairwise tsLE := by
  induction l with
  | nil => simp [sortByTs]
  | cons x xs ih => exact pairwise_insertByTs x (sortByTs xs) ih

/-- **C3.** For a session with at least one stored event,
`GetSessionData` returns the stored events sorted by timestamp ascending
(a permutation of the stored rows), each timestamp replaced by its
offset from the earlier of the session's creation time and the first
event's absolute timestamp; all returned timestamps are non-negative and
monotonically non-decreasing. -/
theorem getSessionData_sorted_normalized (st : SMState) (id : String)
    (sess : TermSession) (evts : List SessionEvent)
    (hdata : GetSessionData st id = some (sess, evts)) (hne : evts ≠ []) :
    (∀ e ∈ evts, 0 ≤ e.timestamp) ∧
    evts.Pairwise tsLE ∧
    ∃ e0 rest, sortByTs (storedEvents st id) = e0 :: rest ∧
      (sortByTs (storedEvents st id)).Perm (storedEvents st id) ∧
      evts = (e0 :: rest).map (fun e =>
        { e with timestamp := e.timestamp - min sess.createdAt e0.timestamp }) := by
  cases hG : GetSession st id with
  | none => simp [GetSessionData, hG] at hdata
  | some s0 =>
    have hdata' := hdata
    simp only [GetSessionData, hG, Option.some.injEq, Prod.mk.injEq] at hdata'
    obtain ⟨rfl, hevts⟩ := hdata'
    cases hs : sortByTs (storedEvents st id) with
    | nil =>
      rw [hs] at hevts
      simp only [normalizeEvents] at hevts
      exact absurd hevts.symm hne
    | cons e0 rest =>
      rw [hs] at hevts
      have hpw : (e0 :: rest).Pairwise tsLE := hs ▸ sortByTs_pairwise (storedEvents st id)
      have hhead : ∀ a ∈ rest, tsLE e0 a := (List.pairwise_cons.mp hpw).1
      have hlow : ∀ e ∈ e0 :: rest,
          (if e0.timestamp < s0.createdAt then e0.timestamp else s0.createdAt) ≤
            e.timestamp := by
        intro e he
        rcases List.mem_cons.mp he with rfl | he'
        · split <;> omega
        · have h2 : e0.timestamp ≤ e.timestamp := hhead e he'
          split <;> omega
      have hmapeq : evts = (e0 :: rest).map (fun e =>
          { e with timestamp := e.timestamp -
              (if e0.timestamp < s0.createdAt then e0.timestamp else s0.createdAt) }) := by
        rw [← hevts]
        simp only [normalizeEvents]
        apply List.map_congr_left
        intro e he
        have h1 := hlow e he
        have hc : ¬ (e.timestamp -
            (if e0.timestamp < s0.createdAt then e0.timestamp else s0.createdAt) < 0) := by
          omega
        rw [if_neg hc]
      have hmin : (if e0.timestamp < s0.createdAt then e0.timestamp else s0.createdAt) =
          min s0.createdAt e0.timestamp := by
        split <;> omega
      rw [hmin] at hmapeq hlow
      refine ⟨?_, ?_, e0, rest, rfl, hs ▸ sortByTs_perm (storedEvents st id), hmapeq⟩
      · intro e he
        rw [hmapeq] at he
        rcases List.mem_map.mp he with ⟨a, ha, rfl⟩
        have h1 := hlow a ha
        simp only []
        omega
      · rw [hmapeq]
        refine List.Pairwise.map _ ?_ hpw
        intro a b hab
        show a.timestamp - min s0.createdAt e0.timestamp ≤
          b.timestamp - min s0.createdAt e0.timestamp
        have h3 : a.timestamp ≤ b.timestamp := hab
        omega

/-- Witness for C3 at the concrete sample store: the two stored rows
(timestamps 150 then 130 in table order) come back sorted and offset
from the creation time 100. -/
theorem getSessionData_sorted_normalized_witness :
    GetSessionData sampleSM "s1" =
      some (sampleSession,
        [{ type := "input", timestamp := 30, data := "ls" },
         { type := "output", timestamp := 50, data := "$ " }]) ∧
    List.Pairwise tsLE
      [{ type := "input", timestamp := 30, data := "ls" },
       { type := "output", timestamp := 50, data := "$ " }] :=
  ⟨by decide,
    (getSessionData_sorted_normalized sampleSM "s1" sampleSession
      [{ type := "input", timestamp := 30, data := "ls" },
       { type := "output", timestamp := 50, data := "$ " }]
      (by decide) (by decide)).2.1⟩

/-! ### C4: the trailing output buffer keeps the most recent 50 KB -/

theorem takeLast_of_le (l : List Nat) (n : Nat) (h : l.length ≤ n) :
    takeLast n l = l := by
  simp [takeLast, Nat.sub_eq_zero_of_le h]

theorem length_takeLast_le (l : List Nat) (n : Nat) :
    (takeLast n l).length ≤ n := by
  simp only [takeLast, List.length_drop]
  omega

theorem bufAppend_eq_takeLast (x d : List Nat) :
    bufAppend x d = takeLast 50000 (x ++ d) := by
  simp only [bufAppend, takeLast]
  split
  · rfl
  · rename_i hle
    simp only [List.length_append] at hle
    have h0 : x.length + d.length - 50000 = 0 := by omega
    have h0' : (x ++ d).length - 50000 = 0 := by
      simp only [List.length_append]
      omega
    rw [h0', List.drop_zero]

theorem drop_append_drop {α : Type} (l d : List α) (k m : Nat) (hk : k ≤ l.length) :
    (l.drop k ++ d).drop m = (l ++ d).drop (k + m) := by
  by_cases hm : m ≤ l.length - k
  · have h1 : m ≤ (l.drop k).length := by
      rw [List.length_drop]
      omega
    rw [List.drop_append_of_le_length h1, List.drop_drop,
      List.drop_append_of_le_length (by omega : k + m ≤ l.length)]
  · have hsplit : m = (l.drop k).length + (m - (l.length - k)) := by
      simp only [List.length_drop]
      omega
    rw [hsplit, List.drop_append]
    have hsplit2 : k + ((l.drop k).length + (m - (l.length - k))) =
        l.length + (k + m - l.length) := by
      simp only [List.length_drop]
      omega
    rw [hsplit2, List.drop_append]
    congr 1
    omega

theorem takeLast_append_takeLast (l d : List Nat) :
    takeLast 50000 (takeLast 50000 l ++ d) = takeLast 50000 (l ++ d) := by
  by_cases h : l.length ≤ 50000
  · rw [takeLast_of_le l _ h]
  · have hlen : (l.drop (l.length - 50000)).length = 50000 := by
      rw [List.length_drop]
      omega
    have hamount : (l.drop (l.length - 50000) ++ d).length - 50000 = d.length := by
      rw [List.length_append, hlen]
      omega
    show (l.drop (l.length - 50000) ++ d).drop ((l.drop (l.length - 50000) ++ d).length - 50000)
        = (l ++ d).drop ((l ++ d).length - 50000)
    rw [hamount, drop_append_drop l d (l.length - 50000) d.length (by omega)]
    have hfin : l.length - 50000 + d.length = (l ++ d).length - 50000 := by
      rw [List.length_append]
      omega
    rw [hfin]

theorem foldl_bufAppend_takeLast (ps : List (List Nat)) (acc : List Nat) :
    ps.foldl bufAppend (takeLast 50000 acc) = takeLast 50000 (acc ++ ps.flatten) := by
  induction ps generalizing acc with
  | nil => rw [List.foldl_nil, List.flatten_nil, List.append_nil]
  | cons d ds ih =>
    rw [List.foldl_cons, bufAppend_eq_takeLast, takeLast_append_takeLast, ih,
      List.flatten_cons, List.append_assoc]

theorem find?_update_assoc (ps : List (String × Room)) (sid : String) (r : Room) :
    (ps.map (fun p => if p.1 == sid then (sid, r) else p)).find? (fun p => p.1 == sid) =
      (ps.find? (fun p => p.1 == sid)).map (fun _ => (sid, r)) := by
  induction ps with
  | nil => rfl
  | cons p ps ih =>
    by_cases hp : (p.1 == sid) = true
    · rw [List.map_cons, if_pos hp,
        @List.find?_cons_of_pos _ (fun q => q.1 == sid) (sid, r) _ (by simp),
        @List.find?_cons_of_pos _ (fun q => q.1 == sid) p ps hp, Option.map_some']
    · rw [List.map_cons, if_neg hp,
        @List.find?_cons_of_neg _ (fun q => q.1 == sid) p _ hp,
        @List.find?_cons_of_neg _ (fun q => q.1 == sid) p ps hp, ih]

theorem lookupRoom_updateRoom (h : HubState) (sid : String) (r : Room) :
    lookupRoom (updateRoom h sid r) sid = (lookupRoom h sid).map (fun _ => r) := by
  simp only [lookupRoom, updateRoom]
  rw [find?_update_assoc]
  cases hf : h.rooms.find? (fun p => p.1 == sid) <;> rfl

theorem lookupRoom_BroadcastOutput (h : HubState) (sid : String) (d : List Nat)
    (now : Int) (room : Room) (hr : lookupRoom h sid = some room) :
    lookupRoom (BroadcastOutput h sid d now) sid =
      some { room with
        outputBuffer := bufAppend room.outputBuffer d,
        viewers := room.viewers.map (fun w => trySend w (msgOutput sid d now)) } := by
  simp [BroadcastOutput, hr, lookupRoom_updateRoom]

theorem fold_broadcast_aux (ps : List (List Nat)) (h0 : HubState) (sid : String)
    (now : Int) (room : Room) (acc : List Nat)
    (hr : lookupRoom h0 sid = some room)
    (hbuf : room.outputBuffer = takeLast 50000 acc) :
    ∃ room', lookupRoom (ps.foldl (fun h d => BroadcastOutput h sid d now) h0) sid =
        some room' ∧
      room'.outputBuffer = takeLast 50000 (acc ++ ps.flatten) := by
  induction ps generalizing h0 room acc with
  | nil => exact ⟨room, hr, by simpa using hbuf⟩
  | cons d ds ih =>
    have hstep := lookupRoom_BroadcastOutput h0 sid d now room hr
    have hbuf' : bufAppend room.outputBuffer d = takeLast 50000 (acc ++ d) := by
      rw [hbuf, bufAppend_eq_takeLast, takeLast_append_takeLast]
    obtain ⟨room', h1, h2⟩ := ih (BroadcastOutput h0 sid d now)
      { room with
        outputBuffer := bufAppend room.outputBuffer d,
        viewers := room.viewers.map (fun w => trySend w (msgOutput sid d now)) }
      (acc ++ d) hstep hbuf'
    refine ⟨room', by simpa [List.foldl_cons] using h1, ?_⟩
    rw [h2]
    simp [List.append_assoc]

/-- **C4.** For a room whose trailing buffer starts empty, after any
finite sequence of `BroadcastOutput` calls for its session the buffer is
exactly the last (at most) 50,000 bytes, in append order, of the
concatenation of all payloads broadcast so far.  (Applying the theorem
to each prefix of the call sequence gives the invariant after every
individual call.) -/
theorem broadcast_buffer_is_capped_suffix (h0 : HubState) (sid : String)
    (room : Room) (hr : lookupRoom h0 sid = some room)
    (hbuf : room.outputBuffer = []) (ps : List (List Nat)) (now : Int) :
    ∃ room', lookupRoom (ps.foldl (fun h d => BroadcastOutput h sid d now) h0) sid =
        some room' ∧
      room'.outputBuffer.length ≤ 50000 ∧
      room'.outputBuffer = takeLast 50000 ps.flatten := by
  obtain ⟨room', h1, h2⟩ := fold_broadcast_aux ps h0 sid now room [] hr (by simp [hbuf, takeLast])
  refine ⟨room', h1, ?_, by simpa using h2⟩
  rw [h2]
  exact length_takeLast_le _ _

/-- Witness for C4: two broadcasts into the sample room. -/
theorem broadcast_buffer_is_capped_suffix_witness :
    lookupRoom sampleHubOwnerOnly "s1" = some sampleRoomOwnerOnly ∧
    sampleRoomOwnerOnly.outputBuffer = [] ∧
    ∃ room', lookupRoom (([[1, 2], [3]] : List (List Nat)).foldl
        (fun h d => BroadcastOutput h "s1" d 9) sampleHubOwnerOnly) "s1" = some room' ∧
      room'.outputBuffer.length ≤ 50000 ∧
      room'.outputBuffer = takeLast 50000 ([[1, 2], [3]] : List (List Nat)).flatten :=
  ⟨by decide, by decide,
    broadcast_buffer_is_capped_suffix sampleHubOwnerOnly "s1" sampleRoomOwnerOnly
      (by decide) (by decide) [[1, 2], [3]] 9⟩

/-! ### Hub lemmas shared by the room-registry claims -/

theorem mem_updateRoom {h : HubState} {sid : String} {r : Room} {p : String × Room}
    (hp : p ∈ (updateRoom h sid r).rooms) : p = (sid, r) ∨ p ∈ h.rooms := by
  rcases List.mem_map.mp hp with ⟨q, hq, rfl⟩
  by_cases h1 : (q.1 == sid) = true
  · left; rw [if_pos h1]
  · right; rw [if_neg h1]; exact hq

theorem mem_of_lookupRoom {h : HubState} {sid : String} {room : Room}
    (hl : lookupRoom h sid = some room) : ∃ k, (k, room) ∈ h.rooms := by
  unfold lookupRoom at hl
  cases hf : h.rooms.find? (fun p => p.1 == sid) with
  | none => rw [hf] at hl; cases hl
  | some q =>
    rw [hf] at hl
    simp only [Option.map_some', Option.some.injEq] at hl
    subst hl
    exact ⟨q.1, by simpa using List.mem_of_find?_eq_some hf⟩

theorem lookupRoom_insertRoom (h : HubState) (sid : String) (r : Room) :
    lookupRoom (insertRoom h sid r) sid = some r := by
  unfold lookupRoom insertRoom
  rw [@List.find?_cons_of_pos _ (fun p => p.1 == sid) (sid, r) _ (by simp)]
  rfl

theorem lookupRoom_removeRoom (h : HubState) (sid : String) :
    lookupRoom (removeRoom h sid) sid = none := by
  unfold lookupRoom removeRoom
  rw [find?_filter_ne_key]
  rfl

theorem lookupRoom_updateRoom_some {h : HubState} {sid : String} {r0 : Room} (r : Room)
    (hr : lookupRoom h sid = some r0) :
    lookupRoom (updateRoom h sid r) sid = some r := by
  rw [lookupRoom_updateRoom, hr]
  rfl

theorem lookupRoom_handleBroadcast {h : HubState} {room : Room} (msg : HubMsg)
    (hr : lookupRoom h msg.sessionId = some room) :
    lookupRoom (handleBroadcast h msg) msg.sessionId =
      some { room with viewers := room.viewers.map (fun w => trySend w msg) } := by
  unfold handleBroadcast
  rw [hr]
  exact lookupRoom_updateRoom_some _ hr

theorem trySend_vid (v : Viewer) (m : HubMsg) : (trySend v m).vid = v.vid := by
  unfold trySend; split <;> rfl

theorem trySend_username (v : Viewer) (m : HubMsg) :
    (trySend v m).username = v.username := by
  unfold trySend; split <;> rfl

theorem trySend_isOwner (v : Viewer) (m : HubMsg) :
    (trySend v m).isOwner = v.isOwner := by
  unfold trySend; split <;> rfl

theorem trySend_canWrite (v : Viewer) (m : HubMsg) :
    (trySend v m).canWrite = v.canWrite := by
  unfold trySend; split <;> rfl

theorem ownerWriteP_trySend {v : Viewer} (m : HubMsg) (h : ownerWriteP v) :
    ownerWriteP (trySend v m) := by
  unfold ownerWriteP at *
  rw [trySend_isOwner, trySend_canWrite]
  exact h

theorem ownerWriteP_grantFirst (sid u : String) (now : Int) (l : List Viewer)
    (hl : ∀ w ∈ l, ownerWriteP w) : ∀ w ∈ grantFirst sid u now l, ownerWriteP w := by
  induction l with
  | nil => intro w hw; cases hw
  | cons x xs ih =>
    intro w hw
    simp only [grantFirst] at hw
    split at hw
    · rcases List.mem_cons.mp hw with rfl | hw'
      · intro _
        rw [trySend_canWrite]
      · exact hl w (List.mem_cons_of_mem _ hw')
    · rcases List.mem_cons.mp hw with rfl | hw'
      · exact hl w (List.mem_cons_self _ _)
      · exact ih (fun q hq => hl q (List.mem_cons_of_mem _ hq)) w hw'

theorem ownerWriteP_revokeFirst (sid u : String) (now : Int) (l : List Viewer)
    (hl : ∀ w ∈ l, ownerWriteP w) : ∀ w ∈ revokeFirst sid u now l, ownerWriteP w := by
  induction l with
  | nil => intro w hw; cases hw
  | cons x xs ih =>
    intro w hw
    simp only [revokeFirst] at hw
    split at hw
    · rename_i hcond
      rcases List.mem_cons.mp hw with rfl | hw'
      · intro habs
        rw [trySend_isOwner] at habs
        have hno : x.isOwner = false := by
          cases hb : x.isOwner
          · rfl
          · rw [hb] at hcond; simp at hcond
        exact absurd habs (by simp [hno])
      · exact hl w (List.mem_cons_of_mem _ hw')
    · rcases List.mem_cons.mp hw with rfl | hw'
      · exact hl w (List.mem_cons_self _ _)
      · exact ih (fun q hq => hl q (List.mem_cons_of_mem _ hq)) w hw'

theorem ownerWriteP_applyMode (mode : PermissionMode) (x : Viewer)
    (hP : ownerWriteP x) : ownerWriteP (applyModeToViewer mode x) := by
  unfold applyModeToViewer
  by_cases hOwn : x.isOwner = true
  · rw [if_pos hOwn]; exact hP
  · rw [if_neg hOwn]
    cases mode <;> exact fun habs => absurd habs hOwn

theorem grantFirst_ne_nil (sid u : String) (now : Int) (l : List Viewer)
    (h : l ≠ []) : grantFirst sid u now l ≠ [] := by
  cases l with
  | nil => exact absurd rfl h
  | cons x xs =>
    simp only [grantFirst]
    split <;> exact List.cons_ne_nil _ _

theorem revokeFirst_ne_nil (sid u : String) (now : Int) (l : List Viewer)
    (h : l ≠ []) : revokeFirst sid u now l ≠ [] := by
  cases l with
  | nil => exact absurd rfl h
  | cons x xs =>
    simp only [revokeFirst]
    split <;> exact List.cons_ne_nil _ _

theorem ownerWriteInv_updateRoom {h : HubState} {r : Room} (sid : String)
    (hinv : ownerWriteInv h) (hr : ∀ w ∈ r.viewers, ownerWriteP w) :
    ownerWriteInv (updateRoom h sid r) := by
  intro p hp
  rcases mem_updateRoom hp with rfl | hp'
  · exact hr
  · exact hinv p hp'

theorem roomsInhabitedInv_updateRoom {h : HubState} {r : Room} (sid : String)
    (hinv : roomsInhabitedInv h) (hr : r.viewers ≠ []) :
    roomsInhabitedInv (updateRoom h sid r) := by
  intro p hp
  rcases mem_updateRoom hp with rfl | hp'
  · exact hr
  · exact hinv p hp'

theorem ownerWriteInv_handleBroadcast {h : HubState} (msg : HubMsg)
    (hinv : ownerWriteInv h) : ownerWriteInv (handleBroadcast h msg) := by
  unfold handleBroadcast
  cases hl : lookupRoom h msg.sessionId with
  | none => exact hinv
  | some room =>
    obtain ⟨k, hk⟩ := mem_of_lookupRoom hl
    refine ownerWriteInv_updateRoom _ hinv ?_
    intro w hw
    rcases List.mem_map.mp hw with ⟨q, hq, rfl⟩
    exact ownerWriteP_trySend _ (hinv (k, room) hk q hq)

theorem roomsInhabitedInv_handleBroadcast {h : HubState} (msg : HubMsg)
    (hinv : roomsInhabitedInv h) : roomsInhabitedInv (handleBroadcast h msg) := by
  unfold handleBroadcast
  cases hl : lookupRoom h msg.sessionId with
  | none => exact hinv
  | some room =>
    obtain ⟨k, hk⟩ := mem_of_lookupRoom hl
    refine roomsInhabitedInv_updateRoom _ hinv ?_
    intro hmapnil
    exact hinv (k, room) hk (List.map_eq_nil_iff.mp hmapnil)

theorem registerInto_shape (h : HubState) (sid : String) (room : Room) (v : Viewer)
    (now : Int) :
    ∃ vNew : Viewer,
      registerInto h sid room v now =
        handleBroadcast (updateRoom h sid
          { room with
            owner := if v.isOwner then some v.vid else room.owner,
            viewers := vNew :: room.viewers.filter (fun w => !(w.vid == v.vid)) })
          (msgViewerJoin sid v.username
            (vNew :: room.viewers.filter (fun w => !(w.vid == v.vid))).length now) ∧
      vNew.vid = v.vid ∧ vNew.username = v.username ∧ vNew.isOwner = v.isOwner ∧
      vNew.canWrite = (v.isOwner ||
        decide (room.permissionMode = PermissionMode.sharedControl)) := by
  cases hOwn : v.isOwner with
  | true =>
    by_cases hb : 0 < room.outputBuffer.length <;>
      simp only [registerInto, hOwn, eq_self_iff_true, if_true, Bool.true_or, hb,
        if_false, Bool.false_eq_true] <;>
      exact ⟨_, rfl, by simp [trySend_vid], by simp [trySend_username],
        by simp [trySend_isOwner], by simp [trySend_canWrite]⟩
  | false =>
    cases hmode : room.permissionMode <;>
      by_cases hb : 0 < room.outputBuffer.length <;>
        simp only [registerInto, hOwn, hmode, Bool.false_eq_true, if_false, if_true,
          eq_self_iff_true, Bool.false_or, hb, decide_eq_true_eq] <;>
        exact ⟨_, rfl, by simp [trySend_vid], by simp [trySend_username],
          by simp [trySend_isOwner], by simp [trySend_canWrite]⟩

theorem registerInto_head (h : HubState) (sid : String) (room : Room) (v : Viewer)
    (now : Int) (r0 : Room) (hr : lookupRoom h sid = some r0) :
    ∃ r' w rest, lookupRoom (registerInto h sid room v now) sid = some r' ∧
      r'.viewers = w :: rest ∧
      w.vid = v.vid ∧ w.username = v.username ∧ w.isOwner = v.isOwner ∧
      w.canWrite = (v.isOwner ||
        decide (room.permissionMode = PermissionMode.sharedControl)) := by
  obtain ⟨vNew, hshape, hvid, husr, hown, hcw⟩ := registerInto_shape h sid room v now
  rw [hshape]
  have h2 := lookupRoom_updateRoom_some
    { room with
      owner := if v.isOwner then some v.vid else room.owner,
      viewers := vNew :: room.viewers.filter (fun w => !(w.vid == v.vid)) } hr
  have h3 := lookupRoom_handleBroadcast
    (msgViewerJoin sid v.username
      (vNew :: room.viewers.filter (fun w => !(w.vid == v.vid))).length now) h2
  refine ⟨_, _, _, h3, by rw [List.map_cons], ?_, ?_, ?_, ?_⟩
  · rw [trySend_vid, hvid]
  · rw [trySend_username, husr]
  · rw [trySend_isOwner, hown]
  · rw [trySend_canWrite, hcw]

theorem ownerWriteInv_registerInto (h : HubState) (sid : String) (room : Room)
    (v : Viewer) (now : Int) (hinv : ownerWriteInv h)
    (hroom : ∀ w ∈ room.viewers, ownerWriteP w) :
    ownerWriteInv (registerInto h sid room v now) := by
  obtain ⟨vNew, hshape, hvid, husr, hown, hcw⟩ := registerInto_shape h sid room v now
  rw [hshape]
  apply ownerWriteInv_handleBroadcast
  apply ownerWriteInv_updateRoom _ hinv
  intro w hw
  rcases List.mem_cons.mp hw with rfl | hw'
  · intro habs
    rw [hown] at habs
    rw [hcw, habs, Bool.true_or]
  · exact hroom w (List.mem_filter.mp hw').1

theorem roomsInhabitedInv_registerInto (h : HubState) (sid : String) (room : Room)
    (v : Viewer) (now : Int) (hinv : roomsInhabitedInv h) :
    roomsInhabitedInv (registerInto h sid room v now) := by
  obtain ⟨vNew, hshape, _, _, _, _⟩ := registerInto_shape h sid room v now
  rw [hshape]
  apply roomsInhabitedInv_handleBroadcast
  apply roomsInhabitedInv_updateRoom _ hinv
  exact List.cons_ne_nil _ _

theorem mem_updateRoom_ne {h : HubState} {sid : String} {r : Room} {p : String × Room}
    (hp : p ∈ (updateRoom h sid r).rooms) :
    p = (sid, r) ∨ (p ∈ h.rooms ∧ (p.1 == sid) = false) := by
  rcases List.mem_map.mp hp with ⟨q, hq, rfl⟩
  by_cases h1 : (q.1 == sid) = true
  · left; rw [if_pos h1]
  · right
    rw [if_neg h1]
    exact ⟨hq, by revert h1; cases (q.1 == sid) <;> simp⟩

theorem ownerWriteInv_applyOp (s : HubState) (op : HubOp) (hinv : ownerWriteInv s) :
    ownerWriteInv (applyOp s op) := by
  cases op with
  | register v sl now =>
    show ownerWriteInv (handleRegister s v sl now)
    unfold handleRegister
    cases hl : lookupRoom s v.sessionId with
    | some room =>
      obtain ⟨k, hk⟩ := mem_of_lookupRoom hl
      exact ownerWriteInv_registerInto _ _ _ _ _ hinv (hinv (k, room) hk)
    | none =>
      cases sl with
      | none => exact hinv
      | some pm =>
        apply ownerWriteInv_registerInto
        · intro p hp
          rcases List.mem_cons.mp hp with rfl | hp'
          · intro w hw; cases hw
          · exact hinv p hp'
        · intro w hw; cases hw
  | unregister v now =>
    show ownerWriteInv (handleUnregister s v now)
    unfold handleUnregister
    cases hl : lookupRoom s v.sessionId with
    | none => exact hinv
    | some room =>
      obtain ⟨k, hk⟩ := mem_of_lookupRoom hl
      dsimp only
      split
      · intro p hp
        exact hinv p (List.mem_filter.mp hp).1
      · apply ownerWriteInv_handleBroadcast
        apply ownerWriteInv_updateRoom _ hinv
        intro w hw
        exact hinv (k, room) hk w (List.mem_filter.mp hw).1
  | broadcastOutput sid d now =>
    show ownerWriteInv (BroadcastOutput s sid d now)
    unfold BroadcastOutput
    cases hl : lookupRoom s sid with
    | none => exact hinv
    | some room =>
      obtain ⟨k, hk⟩ := mem_of_lookupRoom hl
      apply ownerWriteInv_updateRoom _ hinv
      intro w hw
      rcases List.mem_map.mp hw with ⟨q, hq, rfl⟩
      exact ownerWriteP_trySend _ (hinv (k, room) hk q hq)
  | grant sid u now =>
    show ownerWriteInv (GrantPermission s sid u now)
    unfold GrantPermission
    cases hl : lookupRoom s sid with
    | none => exact hinv
    | some room =>
      obtain ⟨k, hk⟩ := mem_of_lookupRoom hl
      apply ownerWriteInv_updateRoom _ hinv
      exact ownerWriteP_grantFirst sid u now room.viewers (hinv (k, room) hk)
  | revoke sid u now =>
    show ownerWriteInv (RevokePermission s sid u now)
    unfold RevokePermission
    cases hl : lookupRoom s sid with
    | none => exact hinv
    | some room =>
      obtain ⟨k, hk⟩ := mem_of_lookupRoom hl
      apply ownerWriteInv_updateRoom _ hinv
      exact ownerWriteP_revokeFirst sid u now room.viewers (hinv (k, room) hk)
  | updateMode sid m now =>
    show ownerWriteInv (UpdatePermissionMode s sid m now)
    unfold UpdatePermissionMode
    cases hl : lookupRoom s sid with
    | some room =>
      obtain ⟨k, hk⟩ := mem_of_lookupRoom hl
      apply ownerWriteInv_handleBroadcast
      apply ownerWriteInv_updateRoom _ hinv
      intro w hw
      rcases List.mem_map.mp hw with ⟨q, hq, rfl⟩
      exact ownerWriteP_applyMode m q (hinv (k, room) hk q hq)
    | none =>
      apply ownerWriteInv_handleBroadcast
      apply ownerWriteInv_updateRoom _ ?_ ?_
      · intro p hp
        rcases List.mem_cons.mp hp with rfl | hp'
        · intro w hw; cases hw
        · exact hinv p hp'
      · intro w hw
        cases hw

theorem roomsInhabitedInv_applyOp (s : HubState) (op : HubOp)
    (hop : opKeepsRoomsInhabited s op) (hinv : roomsInhabitedInv s) :
    roomsInhabitedInv (applyOp s op) := by
  cases op with
  | register v sl now =>
    show roomsInhabitedInv (handleRegister s v sl now)
    unfold handleRegister
    cases hl : lookupRoom s v.sessionId with
    | some room => exact roomsInhabitedInv_registerInto _ _ _ _ _ hinv
    | none =>
      cases sl with
      | none => exact hinv
      | some pm =>
        obtain ⟨vNew, hshape, _, _, _, _⟩ := registerInto_shape
          (insertRoom s v.sessionId
            { sessionId := v.sessionId, owner := none, viewers := [],
              permissionMode := pm, outputBuffer := [] })
          v.sessionId
          { sessionId := v.sessionId, owner := none, viewers := [],
            permissionMode := pm, outputBuffer := [] } v now
        show roomsInhabitedInv (registerInto
          (insertRoom s v.sessionId
            { sessionId := v.sessionId, owner := none, viewers := [],
              permissionMode := pm, outputBuffer := [] })
          v.sessionId
          { sessionId := v.sessionId, owner := none, viewers := [],
            permissionMode := pm, outputBuffer := [] } v now)
        rw [hshape]
        apply roomsInhabitedInv_handleBroadcast
        intro p hp
        rcases mem_updateRoom_ne hp with rfl | ⟨hp', hkey⟩
        · exact List.cons_ne_nil _ _
        · rcases List.mem_cons.mp hp' with rfl | hp''
          · simp at hkey
          · exact hinv p hp''
  | unregister v now =>
    show roomsInhabitedInv (handleUnregister s v now)
    unfold handleUnregister
    cases hl : lookupRoom s v.sessionId with
    | none => exact hinv
    | some room =>
      dsimp only
      split
      · intro p hp
        exact hinv p (List.mem_filter.mp hp).1
      · rename_i hcond
        apply roomsInhabitedInv_handleBroadcast
        apply roomsInhabitedInv_updateRoom _ hinv
        intro hnil
        dsimp only at hnil
        rw [hnil] at hcond
        exact hcond rfl
  | broadcastOutput sid d now =>
    show roomsInhabitedInv (BroadcastOutput s sid d now)
    unfold BroadcastOutput
    cases hl : lookupRoom s sid with
    | none => exact hinv
    | some room =>
      obtain ⟨k, hk⟩ := mem_of_lookupRoom hl
      apply roomsInhabitedInv_updateRoom _ hinv
      intro hmapnil
      exact hinv (k, room) hk (List.map_eq_nil_iff.mp hmapnil)
  | grant sid u now =>
    show roomsInhabitedInv (GrantPermission s sid u now)
    unfold GrantPermission
    cases hl : lookupRoom s sid with
    | none => exact hinv
    | some room =>
      obtain ⟨k, hk⟩ := mem_of_lookupRoom hl
      apply roomsInhabitedInv_updateRoom _ hinv
      exact grantFirst_ne_nil sid u now room.viewers (hinv (k, room) hk)
  | revoke sid u now =>
    show roomsInhabitedInv (RevokePermission s sid u now)
    unfold RevokePermission
    cases hl : lookupRoom s sid with
    | none => exact hinv
    | some room =>
      obtain ⟨k, hk⟩ := mem_of_lookupRoom hl
      apply roomsInhabitedInv_updateRoom _ hinv
      exact revokeFirst_ne_nil sid u now room.viewers (hinv (k, room) hk)
  | updateMode sid m now =>
    show roomsInhabitedInv (UpdatePermissionMode s sid m now)
    unfold UpdatePermissionMode
    cases hl : lookupRoom s sid with
    | some room =>
      obtain ⟨k, hk⟩ := mem_of_lookupRoom hl
      apply roomsInhabitedInv_handleBroadcast
      apply roomsInhabitedInv_updateRoom _ hinv
      intro hmapnil
      exact hinv (k, room) hk (List.map_eq_nil_iff.mp hmapnil)
    | none =>
      exfalso
      have : (lookupRoom s sid).isSome = true := hop
      rw [hl] at this
      cases this

theorem unregister_last_member (s : HubState) (v : Viewer) (now : Int) (r : Room)
    (hl : lookupRoom s v.sessionId = some r)
    (hall : ∀ w ∈ r.viewers, w.vid = v.vid) :
    lookupRoom (handleUnregister s v now) v.sessionId = none := by
  unfold handleUnregister
  rw [hl]
  dsimp only
  have hfil : r.viewers.filter (fun w => !(w.vid == v.vid)) = [] := by
    apply List.filter_eq_nil_iff.mpr
    intro w hw
    simp [hall w hw]
  rw [hfil]
  rw [if_pos (show (([] : List Viewer).length == 0) = true from rfl)]
  exact lookupRoom_removeRoom s v.sessionId

/-! ### C5: room lifecycle (corrected) -/

/-- **C5 counterexample.** `UpdatePermissionMode` on a session with no
live room creates — and leaves in the registry — a room with zero
members, so a reachable hub state contains a room whose member set is
empty. -/
theorem updatePermissionMode_creates_empty_room :
    ReachableHub (UpdatePermissionMode hubInit "s1" PermissionMode.viewOnly 0) ∧
    lookupRoom (UpdatePermissionMode hubInit "s1" PermissionMode.viewOnly 0) "s1" =
      some { sessionId := "s1", owner := none, viewers := [],
             permissionMode := PermissionMode.viewOnly, outputBuffer := [] } :=
  ⟨ReachableHub.step ReachableHub.init (HubOp.updateMode "s1" PermissionMode.viewOnly 0),
   by decide⟩

/-- **C5 amended.** In every hub state reachable by sequences in which
each `UpdatePermissionMode` targets a session that already has a room,
every registered room has a non-empty member set; and unregistering a
room's last member removes the room from the registry immediately.
(`UpdatePermissionMode` on a session without a room instead creates a
room with zero members.) -/
theorem room_exists_iff_nonempty_guarded (s : HubState) (hs : ReachableHubGuarded s) :
    (∀ (sid : String) (r : Room), lookupRoom s sid = some r → r.viewers ≠ []) ∧
    (∀ (v : Viewer) (now : Int) (r : Room), lookupRoom s v.sessionId = some r →
      (∀ w ∈ r.viewers, w.vid = v.vid) →
      lookupRoom (handleUnregister s v now) v.sessionId = none) := by
  have hinv : roomsInhabitedInv s := by
    induction hs with
    | init => intro p hp; exact absurd hp (by simp [hubInit])
    | step hprev op hop ih => exact roomsInhabitedInv_applyOp _ op hop ih
  refine ⟨fun sid r hl => ?_, fun v now r hl hall =>
    unregister_last_member s v now r hl hall⟩
  obtain ⟨k, hk⟩ := mem_of_lookupRoom hl
  exact hinv (k, r) hk

/-- Witness for the amended C5: after the owner registers, the room is
non-empty, and when that last member unregisters the room is gone. -/
theorem room_exists_iff_nonempty_guarded_witness :
    lookupRoom sampleHubOwnerOnly "s1" = some sampleRoomOwnerOnly ∧
    sampleRoomOwnerOnly.viewers ≠ [] ∧
    lookupRoom (handleUnregister sampleHubOwnerOnly sampleOwner 1) "s1" = none := by
  have hreach : ReachableHubGuarded sampleHubOwnerOnly :=
    ReachableHubGuarded.step ReachableHubGuarded.init
      (HubOp.register sampleOwner (some PermissionMode.viewOnly) 0) trivial
  have h := room_exists_iff_nonempty_guarded sampleHubOwnerOnly hreach
  exact ⟨by decide, h.1 "s1" sampleRoomOwnerOnly (by decide),
    h.2 sampleOwner 1 sampleRoomOwnerOnly (by decide) (by decide)⟩

/-! ### C6: write permission assigned on join -/

/-- **C6.** A connection registering into a live room gets its write
flag assigned exactly from its owner flag and the governing permission
mode (the room's mode, or the registry's mode when the room is created):
owners always write; non-owners write exactly in `shared_control` mode —
with no explicit grant call. -/
theorem register_assigns_write_by_mode (h : HubState) (v : Viewer)
    (sl : Option PermissionMode) (now : Int) (m : PermissionMode)
    (hm : effectiveMode h v.sessionId sl = some m) :
    ∃ r' w rest, lookupRoom (handleRegister h v sl now) v.sessionId = some r' ∧
      r'.viewers = w :: rest ∧
      w.vid = v.vid ∧ w.username = v.username ∧ w.isOwner = v.isOwner ∧
      w.canWrite = (v.isOwner || decide (m = PermissionMode.sharedControl)) := by
  unfold handleRegister
  cases hl : lookupRoom h v.sessionId with
  | some room =>
    unfold effectiveMode at hm
    rw [hl] at hm
    dsimp only at hm
    simp only [Option.some.injEq] at hm
    subst hm
    exact registerInto_head h v.sessionId room v now room hl
  | none =>
    unfold effectiveMode at hm
    rw [hl] at hm
    dsimp only at hm
    subst hm
    dsimp only
    exact registerInto_head _ v.sessionId _ v now _ (lookupRoom_insertRoom h v.sessionId _)

/-- Witness for C6 (spec Scenario C): a non-owner joining a fresh
`shared_control` room has `can_write = true` with no grant call. -/
theorem register_assigns_write_by_mode_witness :
    effectiveMode hubInit "s1" (some PermissionMode.sharedControl) =
      some PermissionMode.sharedControl ∧
    (∃ r' w rest, lookupRoom (handleRegister hubInit sampleViewerBob
        (some PermissionMode.sharedControl) 7) "s1" = some r' ∧
      r'.viewers = w :: rest ∧
      w.vid = sampleViewerBob.vid ∧ w.username = sampleViewerBob.username ∧
      w.isOwner = sampleViewerBob.isOwner ∧
      w.canWrite = (sampleViewerBob.isOwner ||
        decide (PermissionMode.sharedControl = PermissionMode.sharedControl))) :=
  ⟨by decide, register_assigns_write_by_mode hubInit sampleViewerBob
    (some PermissionMode.sharedControl) 7 PermissionMode.sharedControl (by decide)⟩

/-! ### C10: an owner connection always has write access -/

/-- **C10.** In every reachable hub state, every room member flagged as
owner has `CanWrite = true`: registering as owner sets it, and
`RevokePermission` / `UpdatePermissionMode` both skip owner connections,
so no hub operation ever clears an owner's write flag. -/
theorem owner_members_always_writable (s : HubState) (hs : ReachableHub s) :
    ∀ (sid : String) (r : Room), lookupRoom s sid = some r →
      ∀ w ∈ r.viewers, w.isOwner = true → w.canWrite = true := by
  have hinv : ownerWriteInv s := by
    induction hs with
    | init => intro p hp; exact absurd hp (by simp [hubInit])
    | step hprev op ih => exact ownerWriteInv_applyOp _ op ih
  intro sid r hl w hw
  obtain ⟨k, hk⟩ := mem_of_lookupRoom hl
  exact hinv (k, r) hk w hw

/-- Witness for C10: the registered owner in the sample room can write. -/
theorem owner_members_always_writable_witness :
    sampleRegisteredOwner ∈ sampleRoomOwnerOnly.viewers ∧
    sampleRegisteredOwner.isOwner = true ∧
    sampleRegisteredOwner.canWrite = true := by
  have hreach : ReachableHub sampleHubOwnerOnly :=
    ReachableHub.step ReachableHub.init
      (HubOp.register sampleOwner (some PermissionMode.viewOnly) 0)
  exact ⟨by decide, by decide,
    owner_members_always_writable sampleHubOwnerOnly hreach "s1" sampleRoomOwnerOnly
      (by decide) sampleRegisteredOwner (by decide) (by decide)⟩

end CyhTerminal
